import Mathlib

/-!
Verification of the chunk/playlist scheduling layer of `p2p-media-loader`
(`p2p-media-loader-hlsjs/lib/chunk-manager.ts`), shallowly embedded in Lean.

The `ChunkManager` class is modelled as an explicit state record
(`CMState`); each method becomes a function from state to state, also
returning the externally observable outputs of that call (batches handed to
the loading engine, and caller-callback invocations).  The two `setTimeout`
uses in `loadChunk` are modelled as pending-timer queues inside the state:
a scheduled retry or a scheduled asynchronous error callback sits in the
state until a dedicated timer-firing operation dispatches it, which mirrors
the host's single-threaded event loop.
-/

/-- One entry of `manifest.segments` as produced by the manifest parser:
only the `uri` field is read by the code. -/
structure Segment where
  uri : String
deriving DecidableEq

/-- One entry of `manifest.playlists` (child-playlist reference of a master
manifest): only the `uri` field is read by the code. -/
structure PlaylistRef where
  uri : String
deriving DecidableEq

/-- The parser's manifest object, restricted to the fields the code reads.
`playlists := none` models a manifest object without a `playlists` field
(JS `undefined`, falsy); `playlists := some l` models a present field,
which is truthy in JS even when the array `l` is empty. -/
structure Manifest where
  segments : List Segment
  playlists : Option (List PlaylistRef)
deriving DecidableEq

/-- Character-list test: does `s` begin with `pat`? (helper for the
substring test used by the URL-scheme check). -/
def charsBeginWith : List Char → List Char → Bool
  | [], _ => true
  | _ :: _, [] => false
  | a :: as, b :: bs => a = b && charsBeginWith as bs

/-- Character-list test: does `s` contain `pat` as a contiguous substring? -/
def charsContain (pat : List Char) : List Char → Bool
  | [] => charsBeginWith pat []
  | c :: rest => charsBeginWith pat (c :: rest) || charsContain pat rest

/-- Modelled from the spec: `Utils.isAbsoluteUrl` lives in
`p2p-media-loader-hlsjs/lib/utils.ts`, which is not part of the repository
snapshot.  The spec recognizes absolute URIs "by scheme presence, e.g.
`scheme://`" , i.e. the URI contains the scheme separator `://`. -/
def isAbsoluteUrl (url : String) : Bool :=
  charsContain "://".toList url.toList

/-- The prefix of a character list up to and including its last `/`
(`none` when no `/` occurs), mirroring
`url.substring(0, url.lastIndexOf("/") + 1)`. -/
def charsToLastSlash : List Char → Option (List Char)
  | [] => none
  | c :: rest =>
    match charsToLastSlash rest with
    | some p => some (c :: p)
    | none => if c = '/' then some ['/'] else none

/-- The `Playlist` class: a registered playlist. -/
structure Playlist where
  url : String
  baseUrl : String
  manifest : Manifest
deriving DecidableEq

/-- The `Playlist` constructor: computes `baseUrl` from `url`; the
constructor throws (`none` here) when `url` contains no `/`. -/
def Playlist.make (url : String) (manifest : Manifest) : Option Playlist :=
  match charsToLastSlash url.toList with
  | none => none
  | some pre => some ⟨url, String.mk pre, manifest⟩

/-- `Playlist.getChunkAbsoluteUrl`: resolve the `index`-th segment's URI
against the playlist's base URL (out-of-range indices read an empty URI;
the code only ever calls this with in-range indices). -/
def Playlist.getChunkAbsoluteUrl (p : Playlist) (index : Nat) : String :=
  let uri := (p.manifest.segments.getD index ⟨""⟩).uri
  if isAbsoluteUrl uri then uri else p.baseUrl ++ uri

/-- The loop body of `Playlist.getChunkIndex`: scan the remaining segments,
`i` being the index of the first of them in the full segment list. -/
def chunkIndexScan (p : Playlist) (url : String) : List Segment → Nat → Int
  | [], _ => -1
  | _ :: rest, i =>
    if url = p.getChunkAbsoluteUrl i then (i : Int) else chunkIndexScan p url rest (i + 1)

/-- `Playlist.getChunkIndex`: index of the first segment whose absolute URL
equals `url`, `-1` if none. -/
def Playlist.getChunkIndex (p : Playlist) (url : String) : Int :=
  chunkIndexScan p url p.manifest.segments 0

/-- `Playlist.getChildPlaylistAbsoluteUrls`: absolute URLs of a master's
child playlists (empty when the manifest has no `playlists` field). -/
def Playlist.getChildPlaylistAbsoluteUrls (p : Playlist) : List String :=
  match p.manifest.playlists with
  | none => []
  | some refs =>
    refs.map (fun pl => if isAbsoluteUrl pl.uri then pl.uri else p.baseUrl ++ pl.uri)

/-- The `Chunk` class: the active chunk request.  The caller's
`onSuccess`/`onError` closures are identified by a request id `rid`;
invocations are reported as outputs tagged with that id. -/
structure Chunk where
  url : String
  rid : Nat
deriving DecidableEq

/-- A pending `setTimeout` from the playlist-miss retry branch of
`loadChunk`. -/
structure RetryTimer where
  url : String
  rid : Nat
  retries : Nat
  delayMs : Nat
deriving DecidableEq

/-- A pending `setTimeout` from the asynchronous `onError` branch of
`loadChunk`. -/
structure ErrorTimer where
  rid : Nat
  message : String
  delayMs : Nat
deriving DecidableEq

/-- A descriptor handed to the loading engine (`LoaderFile`). -/
structure LoaderFile where
  url : String
  priority : Nat
deriving DecidableEq

/-- How a caller callback was invoked. -/
inductive InvKind where
  | success (data : String)
  | error (message : String)
deriving DecidableEq

/-- Externally observable outputs of one method call: batches submitted to
the loading engine via `loader.load`, and caller-callback invocations. -/
inductive Output where
  | loadCall (files : List LoaderFile) (swarmId : String) (loadUrl : Option String)
  | invoke (rid : Nat) (kind : InvKind)
deriving DecidableEq

/-- The `ChunkManager`'s fields, plus the pending timers of its two
`setTimeout` uses. -/
structure CMState where
  playlists : List (String × Playlist)
  chunk : Option Chunk
  prevLoadUrl : Option String
  playQueue : List String
  pendingRetries : List RetryTimer
  pendingErrors : List ErrorTimer
deriving DecidableEq

/-- A fresh `ChunkManager`. -/
def initState : CMState :=
  { playlists := [], chunk := none, prevLoadUrl := none, playQueue := [],
    pendingRetries := [], pendingErrors := [] }

/-- JS `Map.set`: replace in place when the key is present (keeping its
position in iteration order), append otherwise. -/
def mapSet (m : List (String × Playlist)) (k : String) (v : Playlist) :
    List (String × Playlist) :=
  match m with
  | [] => [(k, v)]
  | (k', v') :: rest => if k' = k then (k, v) :: rest else (k', v') :: mapSet rest k v

/-- `ChunkManager.processHlsPlaylist`: parse and register a playlist (the
parser itself is the collaborator; it hands us the manifest object).  A
constructor failure (no `/` in the URL) propagates as an exception and
leaves the registry unchanged. -/
def processHlsPlaylist (st : CMState) (url : String) (manifest : Manifest) : CMState :=
  match Playlist.make url manifest with
  | some playlist => { st with playlists := mapSet st.playlists url playlist }
  | none => st

/-- The scan of `ChunkManager.getChunkLocation` over the registry values in
iteration order. -/
def locateScan : List (String × Playlist) → String → Option Playlist × Int
  | [], _ => (none, -1)
  | (_, playlist) :: rest, url =>
    let chunkIndex := playlist.getChunkIndex url
    if 0 ≤ chunkIndex then (some playlist, chunkIndex) else locateScan rest url

/-- `ChunkManager.getChunkLocation`: find the first registered playlist
containing `url` (the `if (url)` truthiness test makes the empty string and
`undefined` both fail immediately). -/
def getChunkLocation (st : CMState) (url : Option String) : Option Playlist × Int :=
  match url with
  | none => (none, -1)
  | some u => if u = "" then (none, -1) else locateScan st.playlists u

/-- The scan of `ChunkManager.getMasterPlaylist`: first registered playlist
whose manifest has a (truthy) `playlists` field. -/
def findMasterScan : List (String × Playlist) → Option Playlist
  | [] => none
  | (_, playlist) :: rest =>
    if playlist.manifest.playlists.isSome then some playlist else findMasterScan rest

/-- `ChunkManager.getMasterPlaylist`. -/
def getMasterPlaylist (st : CMState) : Option Playlist :=
  findMasterScan st.playlists

/-- The loop of `ChunkManager.getSwarmId` over the master's child URLs. -/
def swarmScan (masterUrl target : String) : List String → Nat → Option String
  | [], _ => none
  | u :: rest, i =>
    if u = target then some (masterUrl ++ "+" ++ toString i)
    else swarmScan masterUrl target rest (i + 1)

/-- `ChunkManager.getSwarmId`, with the registry passed explicitly. -/
def getSwarmIdReg (reg : List (String × Playlist)) (playlist : Playlist) : String :=
  match findMasterScan reg with
  | some master =>
    if master.url ≠ playlist.url then
      match swarmScan master.url playlist.url master.getChildPlaylistAbsoluteUrls 0 with
      | some s => s
      | none => playlist.url
    else playlist.url
  | none => playlist.url

/-- `ChunkManager.getSwarmId` on the manager state. -/
def getSwarmId (st : CMState) (playlist : Playlist) : String :=
  getSwarmIdReg st.playlists playlist

/-- `ChunkManager.loadFiles`: build the forward batch (one descriptor per
segment from `chunkIndex` to the end, ascending priorities starting at
`Math.max(0, playQueue.length - 1)`) and submit it with the swarm id and
the optional primary-URL hint. -/
def loadFiles (reg : List (String × Playlist)) (queueLen : Nat) (playlist : Playlist)
    (chunkIndex : Nat) (loadUrl : Option String) : Output :=
  let priorityBase := max 0 (queueLen - 1)
  Output.loadCall
    ((List.range (playlist.manifest.segments.length - chunkIndex)).map
      (fun j => ⟨playlist.getChunkAbsoluteUrl (chunkIndex + j), priorityBase + j⟩))
    (getSwarmIdReg reg playlist)
    loadUrl

/-- The play-queue continuity check at the top of `ChunkManager.loadChunk`
(lines 69-80): when the queue is non-empty, locate its last element; clear
the queue when that element locates at an index different from
`loadingChunkIndex - 1`. -/
def updateQueue (st : CMState) (loadingChunkIndex : Int) : CMState :=
  match st.playQueue.getLast? with
  | none => st
  | some prevChunkUrl =>
    match getChunkLocation st (some prevChunkUrl) with
    | (some _, prevLoadingChunkIndex) =>
      if prevLoadingChunkIndex ≠ loadingChunkIndex - 1 then { st with playQueue := [] } else st
    | (none, _) => st

/-- The error message of the exhausted-retries branch of `loadChunk`. -/
def chunkNotFoundMessage : String :=
  "Requested chunk cannot be located in known playlists"

/-- `ChunkManager.loadChunk`.  The playlist-miss branch schedules either a
retry timer (500 ms) or an asynchronous error timer (0 ms); the located
branch updates the play queue, installs the active chunk request, submits
the forward batch and records the request URL. -/
def loadChunk (st : CMState) (url : String) (rid : Nat) (playlistMissRetries : Nat) :
    CMState × List Output :=
  match getChunkLocation st (some url) with
  | (none, _) =>
    if playlistMissRetries > 0 then
      ({ st with pendingRetries :=
          st.pendingRetries ++ [⟨url, rid, playlistMissRetries - 1, 500⟩] }, [])
    else
      ({ st with pendingErrors :=
          st.pendingErrors ++ [⟨rid, chunkNotFoundMessage, 0⟩] }, [])
  | (some loadingPlaylist, loadingChunkIndex) =>
    let st1 := updateQueue st loadingChunkIndex
    ({ st1 with chunk := some ⟨url, rid⟩, prevLoadUrl := some url },
     [loadFiles st1.playlists st1.playQueue.length loadingPlaylist
        loadingChunkIndex.toNat (some url)])

/-- The loop of `Array.prototype.indexOf` on the play queue. -/
def indexOfScan (l : List String) (u : String) (i : Nat) : Int :=
  match l with
  | [] => -1
  | x :: rest => if x = u then (i : Int) else indexOfScan rest u (i + 1)

/-- The queue-trimming half of `ChunkManager.setCurrentChunk` (lines
92-98): drop everything before the first occurrence of `u` in the play
queue; leave the queue alone when `u` does not occur. -/
def trimQueue (st : CMState) (u : String) : CMState :=
  let urlIndex := indexOfScan st.playQueue u 0
  if urlIndex < 0 then st
  else { st with playQueue := st.playQueue.drop urlIndex.toNat }

/-- `ChunkManager.setCurrentChunk`: trim the play queue to the suffix
starting at the first occurrence of `url` (when found), then re-submit the
forward batch from the last requested chunk's location (when it still
locates). -/
def setCurrentChunk (st : CMState) (url : Option String) : CMState × List Output :=
  match url with
  | none => (st, [])
  | some u =>
    if u = "" then (st, [])
    else
      let st1 := trimQueue st u
      match st1.prevLoadUrl with
      | some prev =>
        match getChunkLocation st1 (some prev) with
        | (some loadingPlaylist, loadingChunkIndex) =>
          (st1, [loadFiles st1.playlists st1.playQueue.length loadingPlaylist
                   loadingChunkIndex.toNat none])
        | (none, _) => (st1, [])
      | none => (st1, [])

/-- `ChunkManager.abortChunk`: clear the active chunk request only when its
URL matches. -/
def abortChunk (st : CMState) (url : String) : CMState :=
  match st.chunk with
  | some c => if c.url = url then { st with chunk := none } else st
  | none => st

/-- `ChunkManager.onFileLoaded` (engine `FileLoaded` event). -/
def onFileLoaded (st : CMState) (url data : String) : CMState × List Output :=
  match st.chunk with
  | some c =>
    if c.url = url then
      ({ st with playQueue := st.playQueue ++ [url], chunk := none },
       [Output.invoke c.rid (InvKind.success data)])
    else (st, [])
  | none => (st, [])

/-- `ChunkManager.onFileError` (engine `FileError` event). -/
def onFileError (st : CMState) (url errorDetail : String) : CMState × List Output :=
  match st.chunk with
  | some c =>
    if c.url = url then
      ({ st with chunk := none }, [Output.invoke c.rid (InvKind.error errorDetail)])
    else (st, [])
  | none => (st, [])

/-- `ChunkManager.onFileAbort` (engine `FileAbort` event). -/
def onFileAbort (st : CMState) (url : String) : CMState × List Output :=
  match st.chunk with
  | some c =>
    if c.url = url then
      ({ st with chunk := none }, [Output.invoke c.rid (InvKind.error "Loading aborted")])
    else (st, [])
  | none => (st, [])

/-- Dispatch the `k`-th pending retry timer: remove it and perform the
scheduled `loadChunk` call. -/
def fireRetry (st : CMState) (k : Nat) : CMState × List Output :=
  match st.pendingRetries.get? k with
  | none => (st, [])
  | some t =>
    loadChunk { st with pendingRetries := st.pendingRetries.eraseIdx k } t.url t.rid t.retries

/-- Dispatch the `k`-th pending error timer: remove it and invoke the
scheduled `onError` callback. -/
def fireErrorTimer (st : CMState) (k : Nat) : CMState × List Output :=
  match st.pendingErrors.get? k with
  | none => (st, [])
  | some t =>
    ({ st with pendingErrors := st.pendingErrors.eraseIdx k },
     [Output.invoke t.rid (InvKind.error t.message)])

/-- One step of the event-driven system: an external call, an engine event,
or the event loop dispatching a pending timer. -/
inductive Op where
  | processPlaylist (url : String) (manifest : Manifest)
  | loadChunk (url : String) (rid : Nat) (retries : Nat)
  | setCurrentChunk (url : Option String)
  | abortChunk (url : String)
  | fileLoaded (url data : String)
  | fileError (url detail : String)
  | fileAbort (url : String)
  | fireRetry (k : Nat)
  | fireErrorTimer (k : Nat)
deriving DecidableEq

/-- The transition function of the system. -/
def step (st : CMState) (op : Op) : CMState × List Output :=
  match op with
  | .processPlaylist url m => (processHlsPlaylist st url m, [])
  | .loadChunk url rid retries => loadChunk st url rid retries
  | .setCurrentChunk u => setCurrentChunk st u
  | .abortChunk u => (abortChunk st u, [])
  | .fileLoaded url data => onFileLoaded st url data
  | .fileError url detail => onFileError st url detail
  | .fileAbort url => onFileAbort st url
  | .fireRetry k => fireRetry st k
  | .fireErrorTimer k => fireErrorTimer st k

/-- Run a sequence of steps, concatenating all outputs. -/
def runOps (st : CMState) : List Op → CMState × List Output
  | [] => (st, [])
  | op :: rest =>
    let r := step st op
    let r2 := runOps r.1 rest
    (r2.1, r.2 ++ r2.2)

/-- States the system can actually be in. -/
def Reachable (st : CMState) : Prop :=
  ∃ ops : List Op, (runOps initState ops).1 = st

/-! ### Shared concrete data used by witnesses and counterexamples -/

/-- A media playlist manifest with two relative segment URIs. -/
def exM1 : Manifest := ⟨[⟨"s0.ts"⟩, ⟨"s1.ts"⟩], none⟩

/-- A second media playlist manifest with two relative segment URIs. -/
def exM2 : Manifest := ⟨[⟨"t0.ts"⟩, ⟨"t1.ts"⟩], none⟩

/-- The playlist built from `exM1` at `h/a.m3u8`. -/
def exP1 : Playlist := ⟨"h/a.m3u8", "h/", exM1⟩

/-- The playlist built from `exM2` at `h/b.m3u8`. -/
def exP2 : Playlist := ⟨"h/b.m3u8", "h/", exM2⟩

/-! ### Callback accounting for the at-most-once property

Each `loadChunk` call carries a request id `rid` identifying its
`onSuccess`/`onError` pair; `invCount` counts how many times that pair was
invoked in an output log, and `ridOcc` counts the places inside the state
(active chunk request, pending timers) from which an invocation for that
id could still be produced. -/

/-- Number of callback invocations for request id `rid` in an output log. -/
def invCount (rid : Nat) : List Output → Nat
  | [] => 0
  | Output.invoke r _ :: rest => (if r = rid then 1 else 0) + invCount rid rest
  | Output.loadCall _ _ _ :: rest => invCount rid rest

/-- Count the elements of a list whose request id (under `f`) is `rid`. -/
def ridCount (f : α → Nat) (rid : Nat) : List α → Nat
  | [] => 0
  | t :: rest => (if f t = rid then 1 else 0) + ridCount f rid rest

/-- Contribution of the active chunk request to `ridOcc`. -/
def chunkRidCount (c : Option Chunk) (rid : Nat) : Nat :=
  match c with
  | some ch => if ch.rid = rid then 1 else 0
  | none => 0

/-- Number of places in the state from which a callback invocation for
`rid` could still be produced. -/
def ridOcc (st : CMState) (rid : Nat) : Nat :=
  chunkRidCount st.chunk rid
    + ridCount RetryTimer.rid rid st.pendingRetries
    + ridCount ErrorTimer.rid rid st.pendingErrors

/-- Does this operation start a `loadChunk` call with request id `rid`? -/
def Op.usesRid (rid : Nat) : Op → Bool
  | Op.loadChunk _ r _ => r == rid
  | _ => false

/-- Number of `loadChunk` operations with request id `rid` in a trace. -/
def opsUseCount (rid : Nat) : List Op → Nat
  | [] => 0
  | op :: rest => (if Op.usesRid rid op then 1 else 0) + opsUseCount rid rest

lemma invCount_append (rid : Nat) (a b : List Output) :
    invCount rid (a ++ b) = invCount rid a + invCount rid b := by
  induction a with
  | nil => simp [invCount]
  | cons o rest ih =>
    cases o <;> simp [invCount, ih] <;> omega

lemma ridCount_append (f : α → Nat) (rid : Nat) (a b : List α) :
    ridCount f rid (a ++ b) = ridCount f rid a + ridCount f rid b := by
  induction a with
  | nil => simp [ridCount]
  | cons t rest ih => simp [ridCount, ih]; omega

lemma ridCount_eraseIdx (f : α → Nat) (rid : Nat) (l : List α) (k : Nat) (t : α)
    (h : l.get? k = some t) :
    ridCount f rid (l.eraseIdx k) + (if f t = rid then 1 else 0) = ridCount f rid l := by
  induction l generalizing k with
  | nil => simp at h
  | cons x rest ih =>
    cases k with
    | zero =>
      simp only [List.get?] at h
      injection h with h
      subst h
      simp [List.eraseIdx, ridCount]
      omega
    | succ k =>
      simp only [List.get?] at h
      simp [List.eraseIdx, ridCount]
      have := ih k h
      omega

lemma updateQueue_cases (st : CMState) (i : Int) :
    updateQueue st i = st ∨ updateQueue st i = { st with playQueue := [] } := by
  unfold updateQueue
  repeat' split
  all_goals first | exact Or.inl rfl | exact Or.inr rfl

lemma updateQueue_chunk (st : CMState) (i : Int) : (updateQueue st i).chunk = st.chunk := by
  rcases updateQueue_cases st i with h | h <;> rw [h]

lemma updateQueue_prevLoadUrl (st : CMState) (i : Int) :
    (updateQueue st i).prevLoadUrl = st.prevLoadUrl := by
  rcases updateQueue_cases st i with h | h <;> rw [h]

lemma updateQueue_playlists (st : CMState) (i : Int) :
    (updateQueue st i).playlists = st.playlists := by
  rcases updateQueue_cases st i with h | h <;> rw [h]

lemma updateQueue_pendingRetries (st : CMState) (i : Int) :
    (updateQueue st i).pendingRetries = st.pendingRetries := by
  rcases updateQueue_cases st i with h | h <;> rw [h]

lemma updateQueue_pendingErrors (st : CMState) (i : Int) :
    (updateQueue st i).pendingErrors = st.pendingErrors := by
  rcases updateQueue_cases st i with h | h <;> rw [h]

lemma ridOcc_updateQueue (st : CMState) (i : Int) (rid : Nat) :
    ridOcc (updateQueue st i) rid = ridOcc st rid := by
  unfold ridOcc
  rw [updateQueue_chunk, updateQueue_pendingRetries, updateQueue_pendingErrors]

lemma loadChunk_ridOcc (st : CMState) (url : String) (r ret rid : Nat) :
    invCount rid (loadChunk st url r ret).2 + ridOcc (loadChunk st url r ret).1 rid ≤
      ridOcc st rid + (if r = rid then 1 else 0) := by
  unfold loadChunk
  cases hloc : getChunkLocation st (some url) with
  | mk pl idx =>
    cases pl with
    | none =>
      by_cases hr : ret > 0
      · simp only [if_pos hr, invCount, ridOcc, ridCount_append, ridCount]
        omega
      · simp only [if_neg hr, invCount, ridOcc, ridCount_append, ridCount]
        omega
    | some q =>
      simp only [invCount, loadFiles, ridOcc, chunkRidCount]
      rw [updateQueue_pendingRetries, updateQueue_pendingErrors]
      cases st.chunk <;> simp <;> omega

lemma trimQueue_chunk (st : CMState) (u : String) : (trimQueue st u).chunk = st.chunk := by
  simp only [trimQueue]
  split <;> rfl

lemma trimQueue_prevLoadUrl (st : CMState) (u : String) :
    (trimQueue st u).prevLoadUrl = st.prevLoadUrl := by
  simp only [trimQueue]
  split <;> rfl

lemma trimQueue_playlists (st : CMState) (u : String) :
    (trimQueue st u).playlists = st.playlists := by
  simp only [trimQueue]
  split <;> rfl

lemma trimQueue_pendingRetries (st : CMState) (u : String) :
    (trimQueue st u).pendingRetries = st.pendingRetries := by
  simp only [trimQueue]
  split <;> rfl

lemma trimQueue_pendingErrors (st : CMState) (u : String) :
    (trimQueue st u).pendingErrors = st.pendingErrors := by
  simp only [trimQueue]
  split <;> rfl

lemma setCurrentChunk_fields (st : CMState) (u : Option String) :
    (setCurrentChunk st u).1.chunk = st.chunk ∧
    (setCurrentChunk st u).1.prevLoadUrl = st.prevLoadUrl ∧
    (setCurrentChunk st u).1.playlists = st.playlists ∧
    (setCurrentChunk st u).1.pendingRetries = st.pendingRetries ∧
    (setCurrentChunk st u).1.pendingErrors = st.pendingErrors ∧
    ∀ rid, invCount rid (setCurrentChunk st u).2 = 0 := by
  cases u with
  | none => simp [setCurrentChunk, invCount]
  | some s =>
    by_cases hs : s = ""
    · simp [setCurrentChunk, hs, invCount]
    · simp only [setCurrentChunk, if_neg hs]
      cases hp : (trimQueue st s).prevLoadUrl with
      | none =>
        have hp2 : st.prevLoadUrl = none := by rw [← trimQueue_prevLoadUrl st s, hp]
        simp [hp, hp2, trimQueue_chunk, trimQueue_playlists,
          trimQueue_pendingRetries, trimQueue_pendingErrors, invCount]
      | some prev =>
        have hp2 : st.prevLoadUrl = some prev := by rw [← trimQueue_prevLoadUrl st s, hp]
        cases hloc : getChunkLocation (trimQueue st s) (some prev) with
        | mk pl idx =>
          cases pl with
          | none =>
            simp [hp, hp2, hloc, trimQueue_chunk, trimQueue_playlists,
              trimQueue_pendingRetries, trimQueue_pendingErrors, invCount]
          | some q =>
            simp [hp, hp2, hloc, trimQueue_chunk, trimQueue_playlists,
              trimQueue_pendingRetries, trimQueue_pendingErrors, invCount]

lemma ridOcc_setCurrentChunk (st : CMState) (u : Option String) (rid : Nat) :
    ridOcc (setCurrentChunk st u).1 rid = ridOcc st rid := by
  unfold ridOcc
  rw [(setCurrentChunk_fields st u).1, (setCurrentChunk_fields st u).2.2.2.1,
    (setCurrentChunk_fields st u).2.2.2.2.1]

lemma abortChunk_ridOcc (st : CMState) (url : String) (rid : Nat) :
    ridOcc (abortChunk st url) rid ≤ ridOcc st rid := by
  unfold abortChunk
  split
  next c heq =>
    split
    · simp [ridOcc, chunkRidCount, heq]
    · exact Nat.le_refl _
  next heq => exact Nat.le_refl _

lemma onFileLoaded_ridOcc (st : CMState) (url data : String) (rid : Nat) :
    invCount rid (onFileLoaded st url data).2 + ridOcc (onFileLoaded st url data).1 rid ≤
      ridOcc st rid := by
  unfold onFileLoaded
  split
  next c heq =>
    split
    · simp [invCount, ridOcc, chunkRidCount, heq]
      omega
    · simp [invCount]
  next heq => simp [invCount]

lemma onFileError_ridOcc (st : CMState) (url detail : String) (rid : Nat) :
    invCount rid (onFileError st url detail).2 + ridOcc (onFileError st url detail).1 rid ≤
      ridOcc st rid := by
  unfold onFileError
  split
  next c heq =>
    split
    · simp [invCount, ridOcc, chunkRidCount, heq]
      omega
    · simp [invCount]
  next heq => simp [invCount]

lemma onFileAbort_ridOcc (st : CMState) (url : String) (rid : Nat) :
    invCount rid (onFileAbort st url).2 + ridOcc (onFileAbort st url).1 rid ≤
      ridOcc st rid := by
  unfold onFileAbort
  split
  next c heq =>
    split
    · simp [invCount, ridOcc, chunkRidCount, heq]
      omega
    · simp [invCount]
  next heq => simp [invCount]

lemma fireRetry_ridOcc (st : CMState) (k rid : Nat) :
    invCount rid (fireRetry st k).2 + ridOcc (fireRetry st k).1 rid ≤ ridOcc st rid := by
  unfold fireRetry
  split
  next => simp [invCount]
  next t heq =>
    have h1 := loadChunk_ridOcc { st with pendingRetries := st.pendingRetries.eraseIdx k }
      t.url t.rid t.retries rid
    have h2 := ridCount_eraseIdx RetryTimer.rid rid st.pendingRetries k t heq
    simp only [ridOcc] at h1 ⊢
    omega

lemma fireErrorTimer_ridOcc (st : CMState) (k rid : Nat) :
    invCount rid (fireErrorTimer st k).2 + ridOcc (fireErrorTimer st k).1 rid ≤ ridOcc st rid := by
  unfold fireErrorTimer
  split
  next => simp [invCount]
  next t heq =>
    have h2 := ridCount_eraseIdx ErrorTimer.rid rid st.pendingErrors k t heq
    simp [invCount, ridOcc]
    omega

lemma processHlsPlaylist_ridOcc (st : CMState) (url : String) (m : Manifest) (rid : Nat) :
    ridOcc (processHlsPlaylist st url m) rid = ridOcc st rid := by
  unfold processHlsPlaylist
  split <;> rfl

lemma step_ridOcc (st : CMState) (op : Op) (rid : Nat) :
    invCount rid (step st op).2 + ridOcc (step st op).1 rid ≤
      ridOcc st rid + (if Op.usesRid rid op then 1 else 0) := by
  cases op with
  | processPlaylist url m =>
    simp [step, invCount, processHlsPlaylist_ridOcc, Op.usesRid]
  | loadChunk url r ret =>
    have h := loadChunk_ridOcc st url r ret rid
    simpa [step, Op.usesRid, beq_iff_eq] using h
  | setCurrentChunk u =>
    have hf := (setCurrentChunk_fields st u).2.2.2.2.2 rid
    have hr := ridOcc_setCurrentChunk st u rid
    simp [step, Op.usesRid, hf, hr]
  | abortChunk u =>
    simpa [step, Op.usesRid, invCount] using abortChunk_ridOcc st u rid
  | fileLoaded url data =>
    simpa [step, Op.usesRid] using onFileLoaded_ridOcc st url data rid
  | fileError url detail =>
    simpa [step, Op.usesRid] using onFileError_ridOcc st url detail rid
  | fileAbort url =>
    simpa [step, Op.usesRid] using onFileAbort_ridOcc st url rid
  | fireRetry k =>
    simpa [step, Op.usesRid] using fireRetry_ridOcc st k rid
  | fireErrorTimer k =>
    simpa [step, Op.usesRid] using fireErrorTimer_ridOcc st k rid

lemma runOps_ridOcc (ops : List Op) : ∀ (st : CMState) (rid : Nat),
    invCount rid (runOps st ops).2 + ridOcc (runOps st ops).1 rid ≤
      ridOcc st rid + opsUseCount rid ops := by
  induction ops with
  | nil =>
    intro st rid
    simp [runOps, invCount, opsUseCount]
  | cons op rest ih =>
    intro st rid
    have h1 := step_ridOcc st op rid
    have h2 := ih (step st op).1 rid
    simp only [runOps, opsUseCount, invCount_append]
    omega

/-- The trace used to witness and to refute claims about callback
invocation: register a playlist, request `h/s0.ts` (request id 7), abort
it, and then let the engine deliver the loaded event for it anyway. -/
def c1ops : List Op :=
  [Op.processPlaylist "h/a.m3u8" exM1, Op.loadChunk "h/s0.ts" 7 1,
   Op.abortChunk "h/s0.ts", Op.fileLoaded "h/s0.ts" "payload"]

/-- C1 (amended): for every `requestChunk` call, at most one of
`onSuccess`/`onError` is ever invoked — over any trace of engine events
(loaded/error/aborted, in any order and multiplicity), further requests,
aborts, and timer firings, a request id used by at most one `loadChunk`
operation receives at most one callback invocation. -/
theorem requestChunk_invokes_at_most_once (ops : List Op) (rid : Nat)
    (hfresh : opsUseCount rid ops ≤ 1) :
    invCount rid (runOps initState ops).2 ≤ 1 := by
  have h := runOps_ridOcc ops initState rid
  have h0 : ridOcc initState rid = 0 := rfl
  omega

/-- Witness for the amended C1 theorem at the concrete trace `c1ops`. -/
theorem requestChunk_invokes_at_most_once_witness :
    opsUseCount 7 c1ops ≤ 1 ∧ invCount 7 (runOps initState c1ops).2 ≤ 1 :=
  ⟨by decide, requestChunk_invokes_at_most_once c1ops 7 (by decide)⟩

/-- C1 counterexample to "exactly one of `onSuccess`/`onError` is
eventually invoked, regardless of ... further requests or aborts": in the
trace `c1ops` the request for `h/s0.ts` (id 7) is accepted (the active
chunk request is installed), an `abortChunk` for the same URL follows, the
engine then delivers a loaded event for that URL — yet no callback of the
request is ever invoked, and no state component (active request or pending
timer) that could still produce one remains. -/
theorem abort_then_loaded_fires_no_callback :
    (runOps initState (c1ops.take 2)).1.chunk = some ⟨"h/s0.ts", 7⟩ ∧
    Op.fileLoaded "h/s0.ts" "payload" ∈ c1ops ∧
    invCount 7 (runOps initState c1ops).2 = 0 ∧
    ridOcc (runOps initState c1ops).1 7 = 0 := by
  exact ⟨by decide, by decide, by decide, by decide⟩

/-- C8: aborting the active chunk request by URL clears exactly the active
request (all other fields unchanged), after which a loaded event for the
same URL invokes no callback and changes nothing; aborting with a
non-matching URL changes no state at all. -/
theorem abortChunk_frame_and_ignored_loaded (st : CMState) (u : String) (c : Chunk) (d : String) :
    (st.chunk = some c → c.url = u →
      abortChunk st u = { st with chunk := none } ∧
      onFileLoaded (abortChunk st u) u d = (abortChunk st u, [])) ∧
    (st.chunk = some c → c.url ≠ u → abortChunk st u = st) := by
  constructor
  · intro hc hu
    have h1 : abortChunk st u = { st with chunk := none } := by
      unfold abortChunk
      rw [hc]
      simp [hu]
    refine ⟨h1, ?_⟩
    rw [h1]
    unfold onFileLoaded
    simp
  · intro hc hu
    unfold abortChunk
    rw [hc]
    simp [hu]

/-- A state with an active chunk request, used to witness the abort claim. -/
def c8state : CMState :=
  { playlists := [], chunk := some ⟨"h/s0.ts", 3⟩, prevLoadUrl := some "h/s0.ts",
    playQueue := [], pendingRetries := [], pendingErrors := [] }

/-- Witness for the abort claim: both the matching-URL and the
non-matching-URL cases at concrete states. -/
theorem abortChunk_frame_and_ignored_loaded_witness :
    (abortChunk c8state "h/s0.ts" = { c8state with chunk := none } ∧
      onFileLoaded (abortChunk c8state "h/s0.ts") "h/s0.ts" "d" =
        (abortChunk c8state "h/s0.ts", [])) ∧
    abortChunk c8state "h/t0.ts" = c8state :=
  ⟨(abortChunk_frame_and_ignored_loaded c8state "h/s0.ts" ⟨"h/s0.ts", 3⟩ "d").1 rfl rfl,
   (abortChunk_frame_and_ignored_loaded c8state "h/t0.ts" ⟨"h/s0.ts", 3⟩ "d").2 rfl (by decide)⟩

lemma locateScan_fst_none (l : List (String × Playlist)) (u : String)
    (h : (locateScan l u).1 = none) : locateScan l u = (none, -1) := by
  induction l with
  | nil => rfl
  | cons kv rest ih =>
    obtain ⟨k, q⟩ := kv
    by_cases hq : 0 ≤ q.getChunkIndex u
    · simp [locateScan, hq] at h
    · simp only [locateScan] at h ⊢
      simp only [if_neg hq] at h ⊢
      exact ih h

lemma getChunkLocation_fst_none (st : CMState) (u : Option String)
    (h : (getChunkLocation st u).1 = none) : getChunkLocation st u = (none, -1) := by
  cases u with
  | none => rfl
  | some s =>
    unfold getChunkLocation at h ⊢
    by_cases hs : s = ""
    · simp [hs]
    · simp only [if_neg hs] at h ⊢
      exact locateScan_fst_none _ _ h

/-- C10: when the play queue is non-empty but its most recent element no
longer locates in any known playlist, a new chunk request that does locate
leaves the play queue unchanged, whatever the new chunk's index. -/
theorem stale_queue_not_cleared (st : CMState) (url : String) (rid r : Nat)
    (p : Playlist) (i : Int) (prev : String)
    (hne : st.playQueue ≠ [])
    (hlast : st.playQueue.getLast? = some prev)
    (hprev : (getChunkLocation st (some prev)).1 = none)
    (hloc : getChunkLocation st (some url) = (some p, i)) :
    (loadChunk st url rid r).1.playQueue = st.playQueue := by
  have hprev2 := getChunkLocation_fst_none st (some prev) hprev
  simp only [loadChunk, hloc]
  simp only [updateQueue, hlast, hprev2]

/-- A state whose play queue ends in a URL that no longer locates. -/
def c10state : CMState :=
  { playlists := [("h/a.m3u8", exP1)], chunk := none, prevLoadUrl := none,
    playQueue := ["h/zz.ts"], pendingRetries := [], pendingErrors := [] }

/-- Witness for the stale-queue claim at a concrete state. -/
theorem stale_queue_not_cleared_witness :
    c10state.playQueue ≠ [] ∧
    (loadChunk c10state "h/s0.ts" 1 1).1.playQueue = c10state.playQueue :=
  ⟨by decide, stale_queue_not_cleared c10state "h/s0.ts" 1 1 exP1 0 "h/zz.ts"
    (by decide) (by decide) (by decide) (by decide)⟩

/-- The trace leading to the C2 counterexample state: two playlists are
registered, `h/s0.ts` (index 0 of playlist `h/a.m3u8`) is requested and
loaded, so the play queue is `[h/s0.ts]`. -/
def c2ops : List Op :=
  [Op.processPlaylist "h/a.m3u8" exM1, Op.processPlaylist "h/b.m3u8" exM2,
   Op.loadChunk "h/s0.ts" 0 1, Op.fileLoaded "h/s0.ts" "d"]

/-- The C2 counterexample state. -/
def c2state : CMState := (runOps initState c2ops).1

/-- C2 counterexample: a new request for `h/t1.ts` locates at index 1 of
playlist `h/b.m3u8`, while the previous chunk `h/s0.ts` locates at index
0 = 1 - 1 of a DIFFERENT playlist (`h/a.m3u8`): the claim demands the play
queue be cleared (same-playlist is required for continuity), but the code
only compares indices and leaves the queue unchanged. -/
theorem crossPlaylist_consecutive_not_cleared :
    getChunkLocation c2state (some "h/t1.ts") = (some exP2, 1) ∧
    c2state.playQueue.getLast? = some "h/s0.ts" ∧
    getChunkLocation c2state (some "h/s0.ts") = (some exP1, 0) ∧
    exP1 ≠ exP2 ∧
    c2state.playQueue ≠ [] ∧
    (loadChunk c2state "h/t1.ts" 1 1).1.playQueue = ["h/s0.ts"] :=
  ⟨by decide, by decide, by decide, by decide, by decide, by decide⟩

/-- C2 (amended): on a new request located at index `i`, when the play
queue is non-empty and its most recent element locates in SOME playlist at
index `j`, the queue is left unchanged iff `j = i - 1` (in whichever
playlist) and is cleared otherwise; in the cleared case the submitted
batch's priorities are computed from the emptied queue, so the priority
base returns to `max 0 (0 - 1) = 0`. -/
theorem playQueue_continuity_characterization (st : CMState) (url : String) (rid r : Nat)
    (p q : Playlist) (i j : Int) (prev : String)
    (hloc : getChunkLocation st (some url) = (some p, i))
    (hlast : st.playQueue.getLast? = some prev)
    (hprev : getChunkLocation st (some prev) = (some q, j)) :
    (loadChunk st url rid r).1.playQueue = (if j = i - 1 then st.playQueue else []) ∧
    (j ≠ i - 1 → (loadChunk st url rid r).2 =
      [loadFiles st.playlists 0 p i.toNat (some url)]) := by
  simp only [loadChunk, hloc]
  have hq : updateQueue st i = (if j = i - 1 then st else { st with playQueue := [] }) := by
    simp only [updateQueue, hlast, hprev]
    by_cases hj : j = i - 1
    · simp [hj]
    · simp [hj]
  constructor
  · rw [hq]
    by_cases hj : j = i - 1 <;> simp [hj]
  · intro hj
    rw [hq]
    simp [hj]

/-- Witness for the amended C2 claim: requesting `h/t0.ts` (index 0) after
`h/s0.ts` (index 0) breaks the sequence, so the queue is cleared and the
batch priorities start at 0. -/
theorem playQueue_continuity_characterization_witness :
    (loadChunk c2state "h/t0.ts" 1 1).1.playQueue =
      (if (0 : Int) = 0 - 1 then c2state.playQueue else []) ∧
    ((0 : Int) ≠ 0 - 1 → (loadChunk c2state "h/t0.ts" 1 1).2 =
      [loadFiles c2state.playlists 0 exP2 (Int.toNat 0) (some "h/t0.ts")]) :=
  playQueue_continuity_characterization c2state "h/t0.ts" 1 1 exP2 exP1 0 0 "h/s0.ts"
    (by decide) (by decide) (by decide)

lemma swarmScan_not_mem (mu target : String) (urls : List String) (i : Nat)
    (h : target ∉ urls) : swarmScan mu target urls i = none := by
  induction urls generalizing i with
  | nil => rfl
  | cons u rest ih =>
    rw [List.mem_cons] at h
    push_neg at h
    have hu : ¬(u = target) := fun he => h.1 he.symm
    simp only [swarmScan, if_neg hu]
    exact ih (i + 1) h.2

lemma swarmScan_first (mu target : String) (urls : List String) :
    ∀ (i k : Nat), urls.get? k = some target →
    (∀ j, j < k → urls.get? j ≠ some target) →
    swarmScan mu target urls i = some (mu ++ "+" ++ toString (i + k)) := by
  induction urls with
  | nil =>
    intro i k h _
    simp at h
  | cons u rest ih =>
    intro i k hk hbefore
    cases k with
    | zero =>
      simp only [List.get?] at hk
      injection hk with hk
      subst hk
      simp [swarmScan]
    | succ k =>
      have hu : ¬(u = target) := by
        intro he
        exact hbefore 0 (Nat.succ_pos k) (by simp [List.get?, he])
      simp only [swarmScan, if_neg hu]
      rw [show i + (k + 1) = (i + 1) + k by omega]
      exact ih (i + 1) k (by simpa [List.get?] using hk)
        (fun j hj => by simpa [List.get?] using hbefore (j + 1) (Nat.succ_lt_succ hj))

/-- C4: swarm-id resolution.  With no master registered, or when the
playlist is the master itself, or when its URL is not among the master's
child URLs, the swarm id is the playlist's own URL; when its URL first
appears at position `k` of the master's child URLs, the swarm id is
`master.url ++ "+" ++ k`. -/
theorem getSwarmId_cases (st : CMState) (p : Playlist) :
    (getMasterPlaylist st = none → getSwarmId st p = p.url) ∧
    (∀ m, getMasterPlaylist st = some m → m.url = p.url → getSwarmId st p = p.url) ∧
    (∀ m, getMasterPlaylist st = some m → p.url ∉ m.getChildPlaylistAbsoluteUrls →
      getSwarmId st p = p.url) ∧
    (∀ m k, getMasterPlaylist st = some m → m.url ≠ p.url →
      m.getChildPlaylistAbsoluteUrls.get? k = some p.url →
      (∀ j, j < k → m.getChildPlaylistAbsoluteUrls.get? j ≠ some p.url) →
      getSwarmId st p = m.url ++ "+" ++ toString k) := by
  refine ⟨?_, ?_, ?_, ?_⟩
  · intro h
    unfold getMasterPlaylist at h
    simp only [getSwarmId, getSwarmIdReg, h]
  · intro m hm he
    unfold getMasterPlaylist at hm
    simp only [getSwarmId, getSwarmIdReg, hm]
    simp [he]
  · intro m hm hnot
    unfold getMasterPlaylist at hm
    have hs := swarmScan_not_mem m.url p.url m.getChildPlaylistAbsoluteUrls 0 hnot
    simp only [getSwarmId, getSwarmIdReg, hm]
    by_cases hne : m.url = p.url
    · simp [hne]
    · simp [hne, hs]
  · intro m k hm hne hget hfirst
    unfold getMasterPlaylist at hm
    have hs := swarmScan_first m.url p.url m.getChildPlaylistAbsoluteUrls 0 k hget hfirst
    simp only [getSwarmId, getSwarmIdReg, hm]
    simp [hne, hs]

/-- A master manifest referencing two relative child playlists. -/
def exMM : Manifest := ⟨[], some [⟨"v1.m3u8"⟩, ⟨"v2.m3u8"⟩]⟩

/-- The master playlist at `h/m.m3u8`. -/
def exPM : Playlist := ⟨"h/m.m3u8", "h/", exMM⟩

/-- A variant manifest with one segment. -/
def exMV : Manifest := ⟨[⟨"u0.ts"⟩], none⟩

/-- The variant playlist at `h/v1.m3u8` (first child of the master). -/
def exPV : Playlist := ⟨"h/v1.m3u8", "h/", exMV⟩

/-- Registry with the master and its first variant. -/
def c4state : CMState :=
  { initState with playlists := [("h/m.m3u8", exPM), ("h/v1.m3u8", exPV)] }

/-- Registry with only a variant (no master). -/
def c4lone : CMState := { initState with playlists := [("h/v1.m3u8", exPV)] }

/-- Witness for the swarm-id claim: all four cases at concrete registries. -/
theorem getSwarmId_cases_witness :
    getSwarmId c4lone exPV = exPV.url ∧
    getSwarmId c4state exPM = exPM.url ∧
    getSwarmId c4state exP1 = exP1.url ∧
    getSwarmId c4state exPV = exPM.url ++ "+" ++ toString 0 :=
  ⟨(getSwarmId_cases c4lone exPV).1 (by decide),
   (getSwarmId_cases c4state exPM).2.1 exPM (by decide) rfl,
   (getSwarmId_cases c4state exP1).2.2.1 exPM (by decide) (by decide),
   (getSwarmId_cases c4state exPV).2.2.2 exPM 0 (by decide) (by decide) (by decide)
     (fun j hj => absurd hj (Nat.not_lt_zero j))⟩

/-- C5: on a located request, the submitted batch has one descriptor per
segment from the located index to the end of the playlist, in playlist
order, with consecutive priorities starting at `max 0 (queueLength - 1)`
(queue length measured after the continuity update), and the batch is
submitted with the resolved swarm id and the requested URL as hint. -/
theorem loadChunk_batch_spec (st : CMState) (url : String) (rid r : Nat) (p : Playlist)
    (i : Nat) (hloc : getChunkLocation st (some url) = (some p, (i : Int))) :
    ∃ files,
      (loadChunk st url rid r).2 =
        [Output.loadCall files (getSwarmIdReg st.playlists p) (some url)] ∧
      files.length = p.manifest.segments.length - i ∧
      ∀ j, j < p.manifest.segments.length - i →
        files.get? j = some ⟨p.getChunkAbsoluteUrl (i + j),
          max 0 ((updateQueue st (i : Int)).playQueue.length - 1) + j⟩ := by
  have hout : (loadChunk st url rid r).2 =
      [loadFiles st.playlists ((updateQueue st (i : Int)).playQueue.length) p i (some url)] := by
    simp only [loadChunk, hloc]
    rw [updateQueue_playlists]
    norm_num
  refine ⟨(List.range (p.manifest.segments.length - i)).map
      (fun j => ⟨p.getChunkAbsoluteUrl (i + j),
        max 0 ((updateQueue st (i : Int)).playQueue.length - 1) + j⟩), ?_, ?_, ?_⟩
  · rw [hout]
    rfl
  · simp
  · intro j hj
    simp [List.get?_map, List.getElem?_range hj]

/-- A registry holding only `exP1`, used by the batch-spec witness. -/
def c5state : CMState := { initState with playlists := [("h/a.m3u8", exP1)] }

/-- Witness for the batch-spec claim at a concrete located request. -/
theorem loadChunk_batch_spec_witness :
    ∃ files,
      (loadChunk c5state "h/s1.ts" 2 1).2 =
        [Output.loadCall files (getSwarmIdReg c5state.playlists exP1) (some "h/s1.ts")] ∧
      files.length = exP1.manifest.segments.length - 1 ∧
      ∀ j, j < exP1.manifest.segments.length - 1 →
        files.get? j = some ⟨exP1.getChunkAbsoluteUrl (1 + j),
          max 0 ((updateQueue c5state (1 : Int)).playQueue.length - 1) + j⟩ :=
  loadChunk_batch_spec c5state "h/s1.ts" 2 1 exP1 1 (by decide)

lemma eraseIdx_concat_length (l : List α) (a : α) : (l ++ [a]).eraseIdx l.length = l := by
  induction l with
  | nil => rfl
  | cons x rest ih => simp [List.eraseIdx, ih]

/-- C6: on a request whose URL locates in no known playlist, when
`retries > 0` the only effect is to schedule (at the fixed 500 ms delay) a
retry of the same call with `retries - 1`, and dispatching that timer
performs exactly that call; when `retries = 0` the only effect is to
schedule an asynchronous error timer carrying the chunk-not-found message
(no callback runs on the caller's stack, and no exception: the call
returns normally), and dispatching that timer invokes `onError` with that
message. -/
theorem loadChunk_miss_retry_spec (st : CMState) (url : String) (rid retries : Nat)
    (hmiss : getChunkLocation st (some url) = (none, -1)) :
    (retries > 0 →
      loadChunk st url rid retries =
        ({ st with pendingRetries := st.pendingRetries ++ [⟨url, rid, retries - 1, 500⟩] }, []) ∧
      fireRetry
          { st with pendingRetries := st.pendingRetries ++ [⟨url, rid, retries - 1, 500⟩] }
          st.pendingRetries.length =
        loadChunk st url rid (retries - 1)) ∧
    (retries = 0 →
      loadChunk st url rid retries =
        ({ st with pendingErrors := st.pendingErrors ++ [⟨rid, chunkNotFoundMessage, 0⟩] }, []) ∧
      fireErrorTimer
          { st with pendingErrors := st.pendingErrors ++ [⟨rid, chunkNotFoundMessage, 0⟩] }
          st.pendingErrors.length =
        (st, [Output.invoke rid (InvKind.error chunkNotFoundMessage)])) := by
  constructor
  · intro hr
    refine ⟨by simp only [loadChunk, hmiss, if_pos hr], ?_⟩
    unfold fireRetry
    simp only [List.get?_concat_length, eraseIdx_concat_length]
  · intro hr0
    subst hr0
    refine ⟨by simp only [loadChunk, hmiss]; simp, ?_⟩
    unfold fireErrorTimer
    simp only [List.get?_concat_length, eraseIdx_concat_length]

/-- Witness for the miss/retry claim: both branches at the empty state
(nothing locates there). -/
theorem loadChunk_miss_retry_spec_witness :
    (loadChunk initState "h/s9.ts" 4 2 =
        ({ initState with
            pendingRetries := initState.pendingRetries ++ [⟨"h/s9.ts", 4, 2 - 1, 500⟩] }, []) ∧
      fireRetry
          { initState with
            pendingRetries := initState.pendingRetries ++ [⟨"h/s9.ts", 4, 2 - 1, 500⟩] }
          initState.pendingRetries.length =
        loadChunk initState "h/s9.ts" 4 (2 - 1)) ∧
    (loadChunk initState "h/s9.ts" 4 0 =
        ({ initState with
            pendingErrors := initState.pendingErrors ++ [⟨4, chunkNotFoundMessage, 0⟩] }, []) ∧
      fireErrorTimer
          { initState with
            pendingErrors := initState.pendingErrors ++ [⟨4, chunkNotFoundMessage, 0⟩] }
          initState.pendingErrors.length =
        (initState, [Output.invoke 4 (InvKind.error chunkNotFoundMessage)])) :=
  ⟨(loadChunk_miss_retry_spec initState "h/s9.ts" 4 2 (by decide)).1 (by decide),
   (loadChunk_miss_retry_spec initState "h/s9.ts" 4 0 (by decide)).2 rfl⟩

/-- Invariant of reachable states: before any chunk has ever been
requested (`prevLoadUrl = none`), nothing has been loaded (empty play
queue) and no chunk request is active. -/
def NoPrevInv (st : CMState) : Prop :=
  st.prevLoadUrl = none → st.playQueue = [] ∧ st.chunk = none

lemma loadChunk_noPrevInv (st : CMState) (url : String) (rid r : Nat)
    (h : NoPrevInv st) : NoPrevInv (loadChunk st url rid r).1 := by
  unfold NoPrevInv at h ⊢
  cases hloc : getChunkLocation st (some url) with
  | mk pl idx =>
    cases pl with
    | none =>
      by_cases hr : r > 0
      · simpa only [loadChunk, hloc, if_pos hr] using h
      · simpa only [loadChunk, hloc, if_neg hr] using h
    | some q =>
      simp only [loadChunk, hloc]
      intro hp
      simp at hp

lemma trimQueue_playQueue_nil (st : CMState) (u : String) (h : st.playQueue = []) :
    (trimQueue st u).playQueue = [] := by
  simp only [trimQueue]
  split
  · exact h
  · simp [h]

lemma setCurrentChunk_state_eq (st : CMState) (u : String) (hu : ¬(u = "")) :
    (setCurrentChunk st (some u)).1 = trimQueue st u := by
  simp only [setCurrentChunk, if_neg hu]
  cases hp : (trimQueue st u).prevLoadUrl with
  | none => simp [hp]
  | some prev =>
    cases hloc : getChunkLocation (trimQueue st u) (some prev) with
    | mk pl idx =>
      cases pl with
      | none => simp [hp, hloc]
      | some q => simp [hp, hloc]

lemma setCurrentChunk_noPrevInv (st : CMState) (u : Option String) (h : NoPrevInv st) :
    NoPrevInv (setCurrentChunk st u).1 := by
  unfold NoPrevInv at h ⊢
  intro hp
  rw [(setCurrentChunk_fields st u).2.1] at hp
  obtain ⟨hq, hc⟩ := h hp
  cases u with
  | none => exact ⟨hq, hc⟩
  | some s =>
    by_cases hs : s = ""
    · simp only [setCurrentChunk, if_pos hs]
      exact ⟨hq, hc⟩
    · rw [setCurrentChunk_state_eq st s hs]
      exact ⟨trimQueue_playQueue_nil st s hq, by rw [trimQueue_chunk]; exact hc⟩

lemma onFileLoaded_noPrevInv (st : CMState) (url data : String) (h : NoPrevInv st) :
    NoPrevInv (onFileLoaded st url data).1 := by
  unfold NoPrevInv at h ⊢
  unfold onFileLoaded
  split
  next c heq =>
    split
    · intro hp
      have hcontra := (h hp).2.symm.trans heq
      simp at hcontra
    · exact h
  next heq => exact h

lemma onFileError_noPrevInv (st : CMState) (url detail : String) (h : NoPrevInv st) :
    NoPrevInv (onFileError st url detail).1 := by
  unfold NoPrevInv at h ⊢
  unfold onFileError
  split
  next c heq =>
    split
    · intro hp
      exact ⟨(h hp).1, rfl⟩
    · exact h
  next heq => exact h

lemma onFileAbort_noPrevInv (st : CMState) (url : String) (h : NoPrevInv st) :
    NoPrevInv (onFileAbort st url).1 := by
  unfold NoPrevInv at h ⊢
  unfold onFileAbort
  split
  next c heq =>
    split
    · intro hp
      exact ⟨(h hp).1, rfl⟩
    · exact h
  next heq => exact h

lemma abortChunk_noPrevInv (st : CMState) (url : String) (h : NoPrevInv st) :
    NoPrevInv (abortChunk st url) := by
  unfold NoPrevInv at h ⊢
  unfold abortChunk
  split
  next c heq =>
    split
    · intro hp
      exact ⟨(h hp).1, rfl⟩
    · exact h
  next heq => exact h

lemma fireRetry_noPrevInv (st : CMState) (k : Nat) (h : NoPrevInv st) :
    NoPrevInv (fireRetry st k).1 := by
  unfold fireRetry
  split
  next => exact h
  next t heq =>
    apply loadChunk_noPrevInv
    unfold NoPrevInv at h ⊢
    exact h

lemma fireErrorTimer_noPrevInv (st : CMState) (k : Nat) (h : NoPrevInv st) :
    NoPrevInv (fireErrorTimer st k).1 := by
  unfold fireErrorTimer
  split
  next => exact h
  next t heq =>
    unfold NoPrevInv at h ⊢
    exact h

lemma step_noPrevInv (st : CMState) (op : Op) (h : NoPrevInv st) :
    NoPrevInv (step st op).1 := by
  cases op with
  | processPlaylist url m =>
    unfold NoPrevInv at h ⊢
    simp only [step, processHlsPlaylist]
    split
    · exact h
    · exact h
  | loadChunk url rid retries => exact loadChunk_noPrevInv st url rid retries h
  | setCurrentChunk u => exact setCurrentChunk_noPrevInv st u h
  | abortChunk u => exact abortChunk_noPrevInv st u h
  | fileLoaded url data => exact onFileLoaded_noPrevInv st url data h
  | fileError url detail => exact onFileError_noPrevInv st url detail h
  | fileAbort url => exact onFileAbort_noPrevInv st url h
  | fireRetry k => exact fireRetry_noPrevInv st k h
  | fireErrorTimer k => exact fireErrorTimer_noPrevInv st k h

lemma runOps_noPrevInv (ops : List Op) : ∀ st, NoPrevInv st → NoPrevInv (runOps st ops).1 := by
  induction ops with
  | nil =>
    intro st h
    exact h
  | cons op rest ih =>
    intro st h
    exact ih (step st op).1 (step_noPrevInv st op h)

lemma reachable_noPrevInv (st : CMState) (h : Reachable st) : NoPrevInv st := by
  obtain ⟨ops, hops⟩ := h
  rw [← hops]
  exact runOps_noPrevInv ops initState (fun _ => ⟨rfl, rfl⟩)

lemma getChunkLocation_congr (st st2 : CMState) (h : st2.playlists = st.playlists)
    (u : Option String) : getChunkLocation st2 u = getChunkLocation st u := by
  cases u with
  | none => rfl
  | some s =>
    unfold getChunkLocation
    rw [h]

lemma trimQueue_playQueue_notFound (st : CMState) (u : String)
    (h : indexOfScan st.playQueue u 0 = -1) : (trimQueue st u).playQueue = st.playQueue := by
  simp only [trimQueue, h]
  norm_num

lemma trimQueue_playQueue_found (st : CMState) (u : String) (k : Nat)
    (h : indexOfScan st.playQueue u 0 = (k : Int)) :
    (trimQueue st u).playQueue = st.playQueue.drop k := by
  have h1 : ¬((k : Int) < 0) := by omega
  simp only [trimQueue, h, if_neg h1]
  simp

/-- C7: `setCurrentChunk url` (for a real URL): the play queue becomes its
suffix starting at the first occurrence of `url` (unchanged when `url` is
not in the queue); the active chunk request and the last-requested URL are
untouched; when a prior request exists whose URL still locates, the
forward batch from that location is re-submitted (with no primary hint);
when no prior request exists the call is, on any reachable state, a
complete no-op. -/
theorem setCurrentChunk_spec (st : CMState) (u : String) (hu : ¬(u = "")) :
    (indexOfScan st.playQueue u 0 = -1 →
      (setCurrentChunk st (some u)).1.playQueue = st.playQueue) ∧
    (∀ k : Nat, indexOfScan st.playQueue u 0 = (k : Int) →
      (setCurrentChunk st (some u)).1.playQueue = st.playQueue.drop k) ∧
    (setCurrentChunk st (some u)).1.chunk = st.chunk ∧
    (setCurrentChunk st (some u)).1.prevLoadUrl = st.prevLoadUrl ∧
    (∀ prev p idx, st.prevLoadUrl = some prev →
      getChunkLocation st (some prev) = (some p, idx) →
      (setCurrentChunk st (some u)).2 =
        [loadFiles st.playlists (setCurrentChunk st (some u)).1.playQueue.length p
          idx.toNat none]) ∧
    (st.prevLoadUrl = none → Reachable st → setCurrentChunk st (some u) = (st, [])) := by
  refine ⟨?_, ?_, ?_, ?_, ?_, ?_⟩
  · intro h
    rw [setCurrentChunk_state_eq st u hu]
    exact trimQueue_playQueue_notFound st u h
  · intro k h
    rw [setCurrentChunk_state_eq st u hu]
    exact trimQueue_playQueue_found st u k h
  · exact (setCurrentChunk_fields st (some u)).1
  · exact (setCurrentChunk_fields st (some u)).2.1
  · intro prev p idx hprev hloc
    have hp2 : (trimQueue st u).prevLoadUrl = some prev := by
      rw [trimQueue_prevLoadUrl]
      exact hprev
    have hloc2 : getChunkLocation (trimQueue st u) (some prev) = (some p, idx) := by
      rw [getChunkLocation_congr st (trimQueue st u) (trimQueue_playlists st u) (some prev)]
      exact hloc
    simp only [setCurrentChunk, if_neg hu, hp2, hloc2]
    rw [trimQueue_playlists]
  · intro hprev hreach
    obtain ⟨hq, hc⟩ := reachable_noPrevInv st hreach hprev
    have hidx : indexOfScan st.playQueue u 0 = -1 := by
      rw [hq]
      rfl
    have htrim : trimQueue st u = st := by
      simp only [trimQueue, hidx]
      norm_num
    simp only [setCurrentChunk, if_neg hu, htrim, hprev]

/-- Witness for the `setCurrentChunk` claim: the found/trim, frame,
re-submission and reachable no-op cases at concrete states. -/
theorem setCurrentChunk_spec_witness :
    ((setCurrentChunk c2state (some "h/s0.ts")).1.playQueue = c2state.playQueue.drop 0 ∧
     (setCurrentChunk c2state (some "h/s0.ts")).1.chunk = c2state.chunk ∧
     (setCurrentChunk c2state (some "h/s0.ts")).2 =
       [loadFiles c2state.playlists
         (setCurrentChunk c2state (some "h/s0.ts")).1.playQueue.length exP1
         (Int.toNat 0) none]) ∧
    setCurrentChunk initState (some "h/x.ts") = (initState, []) :=
  ⟨⟨(setCurrentChunk_spec c2state "h/s0.ts" (by decide)).2.1 0 (by decide),
    (setCurrentChunk_spec c2state "h/s0.ts" (by decide)).2.2.1,
    (setCurrentChunk_spec c2state "h/s0.ts" (by decide)).2.2.2.2.1 "h/s0.ts" exP1 0
      (by decide) (by decide)⟩,
   (setCurrentChunk_spec initState "h/x.ts" (by decide)).2.2.2.2.2 rfl ⟨[], rfl⟩⟩

/-- The spec's single resolution rule, stated once: an absolute URI
(scheme present) passes through unchanged, a relative URI is prepended
with the base URL. -/
def resolveAgainstBase (baseUrl uri : String) : String :=
  if isAbsoluteUrl uri then uri else baseUrl ++ uri

/-- C9: both the segment-URL computation and the child-playlist-URL
computation follow exactly the single resolution rule: the stored URI is
returned unchanged when absolute (scheme presence), and `baseUrl ++ uri`
otherwise. -/
theorem url_resolution_rule (p : Playlist) :
    (∀ index : Nat, p.getChunkAbsoluteUrl index =
      resolveAgainstBase p.baseUrl (p.manifest.segments.getD index ⟨""⟩).uri) ∧
    p.getChildPlaylistAbsoluteUrls =
      (p.manifest.playlists.getD []).map (fun pl => resolveAgainstBase p.baseUrl pl.uri) := by
  constructor
  · intro index
    rfl
  · cases hp : p.manifest.playlists with
    | none => simp [Playlist.getChildPlaylistAbsoluteUrls, hp]
    | some refs => simp [Playlist.getChildPlaylistAbsoluteUrls, hp, resolveAgainstBase]

lemma chunkIndexScan_finds (p : Playlist) (target : String) (i : Nat) :
    ∀ (segs : List Segment) (k : Nat),
      k + segs.length = p.manifest.segments.length →
      k ≤ i → i < p.manifest.segments.length →
      (∀ j, k ≤ j → j < i → p.getChunkAbsoluteUrl j ≠ target) →
      p.getChunkAbsoluteUrl i = target →
      chunkIndexScan p target segs k = (i : Int) := by
  intro segs
  induction segs with
  | nil =>
    intro k hlen hk hi _ _
    simp only [List.length_nil] at hlen
    omega
  | cons s rest ih =>
    intro k hlen hk hi hbefore htarget
    by_cases hki : k = i
    · subst hki
      simp [chunkIndexScan, htarget]
    · have hklt : k < i := lt_of_le_of_ne hk hki
      have hne : ¬(target = p.getChunkAbsoluteUrl k) :=
        fun he => hbefore k (le_refl k) hklt he.symm
      simp only [chunkIndexScan, if_neg hne]
      exact ih (k + 1) (by simp only [List.length_cons] at hlen; omega) hklt hi
        (fun j hj1 hj2 => hbefore j (by omega) hj2) htarget

lemma locateScan_mapSet (target : String) (p : Playlist) (i : Int)
    (hp : p.getChunkIndex target = i) (hi : 0 ≤ i) :
    ∀ (l : List (String × Playlist)) (url : String),
      (∀ k q, (k, q) ∈ l → k ≠ url → q.getChunkIndex target < 0) →
      locateScan (mapSet l url p) target = (some p, i) := by
  intro l
  induction l with
  | nil =>
    intro url _
    simp only [mapSet, locateScan, hp]
    simp [hi]
  | cons kv rest ih =>
    intro url hothers
    obtain ⟨k, q⟩ := kv
    by_cases hk : k = url
    · subst hk
      simp only [mapSet, if_pos rfl, locateScan, hp]
      simp [hi]
    · simp only [mapSet, if_neg hk, locateScan]
      have hq : q.getChunkIndex target < 0 :=
        hothers k q (List.mem_cons_self _ _) hk
      rw [if_neg (by omega)]
      exact ih url (fun k2 q2 hmem hne2 => hothers k2 q2 (List.mem_cons_of_mem _ hmem) hne2)

/-- C3 (amended): after registering `(url, m)`, the absolute URL of its
segment `i` locates back to that playlist at index `i`, provided that URL
is not already resolved by another registered playlist and no earlier
segment of the same playlist resolves to the same URL (with duplicates the
locator returns the first match instead). -/
theorem process_then_locate_index (st : CMState) (url : String) (m : Manifest)
    (p : Playlist) (i : Nat)
    (hmk : Playlist.make url m = some p)
    (hi : i < m.segments.length)
    (hothers : ∀ k q, (k, q) ∈ st.playlists → k ≠ url →
      q.getChunkIndex (p.getChunkAbsoluteUrl i) < 0)
    (hnodup : ∀ j, j < i → p.getChunkAbsoluteUrl j ≠ p.getChunkAbsoluteUrl i)
    (hne : ¬(p.getChunkAbsoluteUrl i = "")) :
    getChunkLocation (processHlsPlaylist st url m) (some (p.getChunkAbsoluteUrl i)) =
      (some p, (i : Int)) := by
  have hpm : p.manifest = m := by
    unfold Playlist.make at hmk
    cases hcs : charsToLastSlash url.toList with
    | none =>
      rw [hcs] at hmk
      exact absurd hmk (by simp)
    | some pre =>
      rw [hcs] at hmk
      injection hmk with h2
      rw [← h2]
  have hidx : p.getChunkIndex (p.getChunkAbsoluteUrl i) = (i : Int) := by
    unfold Playlist.getChunkIndex
    exact chunkIndexScan_finds p _ i p.manifest.segments 0 (by simp) (Nat.zero_le i)
      (by rw [hpm]; exact hi) (fun j hj1 hj2 => hnodup j hj2) rfl
  simp only [processHlsPlaylist, hmk, getChunkLocation, if_neg hne]
  exact locateScan_mapSet _ p (i : Int) hidx (by omega) st.playlists url hothers

/-- Witness for the amended locate claim: register `exM1` into an empty
registry and locate its second segment. -/
theorem process_then_locate_index_witness :
    getChunkLocation (processHlsPlaylist initState "h/a.m3u8" exM1)
      (some (exP1.getChunkAbsoluteUrl 1)) = (some exP1, (1 : Int)) :=
  process_then_locate_index initState "h/a.m3u8" exM1 exP1 1 (by decide) (by decide)
    (fun k q hmem _ => absurd hmem (List.not_mem_nil _))
    (fun j hj => by
      have hj0 : j = 0 := by omega
      subst hj0
      decide)
    (by decide)

/-- A manifest whose two segments share one URI. -/
def dupM : Manifest := ⟨[⟨"s.ts"⟩, ⟨"s.ts"⟩], none⟩

/-- The playlist built from `dupM`. -/
def dupP : Playlist := ⟨"h/d.m3u8", "h/", dupM⟩

/-- C3 counterexample: with a duplicated segment URI, locating the
absolute URL of segment 1 returns index 0, not 1 — the claimed round-trip
fails for `i = 1`. -/
theorem duplicate_uri_locates_first_index :
    Playlist.make "h/d.m3u8" dupM = some dupP ∧
    (1 : Nat) < dupM.segments.length ∧
    getChunkLocation (processHlsPlaylist initState "h/d.m3u8" dupM)
      (some (dupP.getChunkAbsoluteUrl 1)) = (some dupP, 0) ∧
    (0 : Int) ≠ (1 : Int) :=
  ⟨by decide, by decide, by decide, by decide⟩
